import Mathlib

/-!
Verification development for the NobleBooksFactory backend: a shallow
embedding of the provider registry (`app/services/llm_service.py`), the
agent task-execution wrapper (`app/agents/base_agent.py`), the research
agent's summary construction (`app/agents/research_agent.py`), and the
generation orchestrator (`app/services/book_generation_service.py`).

Conventions: Python floats are modelled as rationals (`ℚ`); Python dicts
whose iteration order matters are modelled as insertion-ordered
association lists; exceptions raised by provider calls are modelled by a
boolean outcome function supplied as a parameter.
-/

namespace NobleBooks

/-! ## Provider registry (`app/services/llm_service.py`) -/

/-- The `LLMProvider` enum. (`LOCAL` is renamed `localModel` because
`local` is a Lean keyword.) -/
inductive LLMProvider
  | openai
  | anthropic
  | huggingface
  | localModel
deriving DecidableEq, Repr

/-- `self.provider_health`: insertion-ordered mapping from provider to
boolean health.  In every service state considered here each listed
provider also has a stored handle in `self.providers` (handles are kept
when a provider is marked unhealthy), so the key list doubles as the set
of known registered providers. -/
abbrev HealthTable := List (LLMProvider × Bool)

/-- The keys of the health table: the known registered providers. -/
def registeredProviders (tbl : HealthTable) : List LLMProvider :=
  tbl.map Prod.fst

/-- `LLMService.get_available_providers`: providers currently marked
healthy, in table order. -/
def get_available_providers (tbl : HealthTable) : List LLMProvider :=
  (tbl.filter fun e => e.2).map Prod.fst

/-- `self.provider_health[p] = b` for a provider already present in the
table (every provider written during `generate_completion` came from the
table, so no fresh key is ever inserted there). -/
def setHealth (tbl : HealthTable) (p : LLMProvider) (b : Bool) : HealthTable :=
  tbl.map fun e => if e.1 = p then (p, b) else e

/-- Lookup of `self.provider_health[p]`. -/
def lookupHealth (tbl : HealthTable) (p : LLMProvider) : Option Bool :=
  match tbl.find? fun e => e.1 = p with
  | some e => some e.2
  | none => none

/-- The `providers_to_try` list built at the top of
`generate_completion`: the preferred provider first when it is currently
available, followed by the remaining available providers in table
order. -/
def providersToTry (preferred : Option LLMProvider) (tbl : HealthTable) :
    List LLMProvider :=
  let available := get_available_providers tbl
  match preferred with
  | some p => if p ∈ available then p :: available.filter (fun q => ¬ q = p) else available
  | none => available

/-- Result of one `generate_completion` invocation.  `success = some p`
means provider `p`'s response was returned; `success = none` means the
final `LLMError` was raised, surfacing `lastError` (the provider whose
error was stored in `last_error`, `none` when no provider was tried).
`attempts` lists the providers whose handle was invoked via `ainvoke`,
in order.  `health` is the provider-health table after the call. -/
structure GenResult where
  success : Option LLMProvider
  lastError : Option LLMProvider
  attempts : List LLMProvider
  health : HealthTable
deriving DecidableEq, Repr

/-- The `for provider_name in providers_to_try` loop of
`generate_completion`.  `outcome p = true` models `provider.ainvoke`
returning normally for `p` in this invocation; `outcome p = false`
models it raising.  On a failure the provider is marked unhealthy and
`_reinitialize_provider` runs: `reinitOk p = true` models a
reinitialization that succeeds (stored credentials present and the
constructor returns), which re-marks `p` healthy; `reinitOk p = false`
models a reinitialization that does not restore health. -/
def tryProviders (outcome reinitOk : LLMProvider → Bool) :
    List LLMProvider → HealthTable → List LLMProvider → Option LLMProvider → GenResult
  | [], tbl, attempted, lastErr => ⟨none, lastErr, attempted, tbl⟩
  | p :: rest, tbl, attempted, lastErr =>
    if outcome p then
      ⟨some p, lastErr, attempted ++ [p], tbl⟩
    else
      let tbl' := setHealth tbl p false
      let tbl'' := if reinitOk p then setHealth tbl' p true else tbl'
      tryProviders outcome reinitOk rest tbl'' (attempted ++ [p]) (some p)

/-- `LLMService.generate_completion`, keyed by the provider behaviour of
this invocation. -/
def generate_completion (preferred : Option LLMProvider) (tbl : HealthTable)
    (outcome reinitOk : LLMProvider → Bool) : GenResult :=
  tryProviders outcome reinitOk (providersToTry preferred tbl) tbl [] none

/-- Characterisation of the provider loop: the loop raises (success `none`)
exactly when every queued provider's call fails; a returned success comes
from a queued provider whose call succeeded; and on failure every queued
provider was attempted and `last_error` belongs to the last queued
provider (or stays at its incoming value when the queue is empty). -/
theorem tryProviders_spec (outcome reinitOk : LLMProvider → Bool) :
    ∀ (q : List LLMProvider) (tbl : HealthTable) (acc : List LLMProvider)
      (le : Option LLMProvider),
      ((tryProviders outcome reinitOk q tbl acc le).success = none ↔
        ∀ p ∈ q, outcome p = false)
      ∧ (∀ p, (tryProviders outcome reinitOk q tbl acc le).success = some p →
          outcome p = true ∧ p ∈ q)
      ∧ ((tryProviders outcome reinitOk q tbl acc le).success = none →
          (tryProviders outcome reinitOk q tbl acc le).attempts = acc ++ q
          ∧ (∀ x, q.getLast? = some x →
              (tryProviders outcome reinitOk q tbl acc le).lastError = some x)
          ∧ (q = [] → (tryProviders outcome reinitOk q tbl acc le).lastError = le)) := by
  intro q
  induction q with
  | nil =>
    intro tbl acc le
    simp [tryProviders]
  | cons p rest ih =>
    intro tbl acc le
    by_cases h : outcome p
    · refine ⟨?_, ?_, ?_⟩
      · constructor
        · intro hnone
          simp [tryProviders, h] at hnone
        · intro hall
          exact absurd (hall p (List.mem_cons_self p rest)) (by simp [h])
      · intro p' hp'
        have hp : p' = p := by
          simpa [tryProviders, h] using hp'.symm
        subst hp
        exact ⟨h, List.mem_cons_self p' rest⟩
      · intro hnone
        simp [tryProviders, h] at hnone
    · have step : tryProviders outcome reinitOk (p :: rest) tbl acc le =
          tryProviders outcome reinitOk rest
            (if reinitOk p then setHealth (setHealth tbl p false) p true
             else setHealth tbl p false)
            (acc ++ [p]) (some p) := by
        simp [tryProviders, h]
      obtain ⟨ih1, ih2, ih3⟩ := ih
        (if reinitOk p then setHealth (setHealth tbl p false) p true
         else setHealth tbl p false) (acc ++ [p]) (some p)
      refine ⟨?_, ?_, ?_⟩
      · rw [step, ih1]
        constructor
        · intro hall p' hp'
          rcases List.mem_cons.mp hp' with hp' | hp'
          · exact hp' ▸ (by simpa using h)
          · exact hall p' hp'
        · intro hall p' hp'
          exact hall p' (List.mem_cons_of_mem _ hp')
      · intro p' hp'
        rw [step] at hp'
        obtain ⟨ho, hm⟩ := ih2 p' hp'
        exact ⟨ho, List.mem_cons_of_mem _ hm⟩
      · intro hnone
        rw [step] at hnone ⊢
        obtain ⟨ha, hl, hle⟩ := ih3 hnone
        refine ⟨by rw [ha]; simp, ?_, by intro hq; cases hq⟩
        intro x hx
        cases rest with
        | nil =>
          have hx' : x = p := by simpa using hx.symm
          exact hx' ▸ hle rfl
        | cons b l =>
          exact hl x (by simpa [List.getLast?_cons_cons] using hx)

/-- On the failure path the surfaced `last_error` is the error of the last
provider in the try list (`none` when no provider was available to try). -/
theorem tryProviders_lastError (outcome reinitOk : LLMProvider → Bool)
    (q : List LLMProvider) (tbl : HealthTable)
    (hnone : (tryProviders outcome reinitOk q tbl [] none).success = none) :
    (tryProviders outcome reinitOk q tbl [] none).lastError = q.getLast? := by
  obtain ⟨-, -, h3⟩ := tryProviders_spec outcome reinitOk q tbl [] none
  obtain ⟨-, hl, hle⟩ := h3 hnone
  cases hq : q.getLast? with
  | some x => exact hl x hq
  | none =>
    have hq' : q = [] := by simpa using hq
    exact hle hq'

/-- C2, amended.  `generate_completion` raises exactly when every provider
in its `providers_to_try` list — the providers marked healthy at the start
of the invocation, preferred provider first — has been tried and its call
failed; in that case every one of them was attempted and the surfaced
error is the last one's error.  If any of them succeeds, the response of
the first succeeding provider is returned.  (Providers already unhealthy
at the start of the invocation are never part of the list.) -/
theorem generate_completion_exhaustion (preferred : Option LLMProvider)
    (tbl : HealthTable) (outcome reinitOk : LLMProvider → Bool) :
    ((generate_completion preferred tbl outcome reinitOk).success = none ↔
      ∀ p ∈ providersToTry preferred tbl, outcome p = false)
    ∧ ((generate_completion preferred tbl outcome reinitOk).success = none →
        (generate_completion preferred tbl outcome reinitOk).attempts =
            providersToTry preferred tbl
        ∧ (generate_completion preferred tbl outcome reinitOk).lastError =
            (providersToTry preferred tbl).getLast?)
    ∧ (∀ p, (generate_completion preferred tbl outcome reinitOk).success = some p →
        outcome p = true ∧ p ∈ providersToTry preferred tbl) := by
  obtain ⟨h1, h2, h3⟩ :=
    tryProviders_spec outcome reinitOk (providersToTry preferred tbl) tbl [] none
  refine ⟨h1, ?_, h2⟩
  intro hnone
  obtain ⟨ha, -, -⟩ := h3 hnone
  exact ⟨by simpa using ha,
    tryProviders_lastError outcome reinitOk (providersToTry preferred tbl) tbl hnone⟩

/-- Counterexample to C2 as stated: with `openai` registered but marked
unhealthy (as after a failed prior call whose reinitialization did not
restore it) and `anthropic` healthy, a call in which `anthropic` fails
makes the whole operation fail even though the known registered provider
`openai` was never tried in that invocation. -/
theorem generate_completion_fails_without_trying_all_registered :
    (generate_completion none
        [(LLMProvider.openai, false), (LLMProvider.anthropic, true)]
        (fun _ => false) (fun _ => false)).success = none
    ∧ LLMProvider.openai ∈
        registeredProviders [(LLMProvider.openai, false), (LLMProvider.anthropic, true)]
    ∧ LLMProvider.openai ∉
        (generate_completion none
          [(LLMProvider.openai, false), (LLMProvider.anthropic, true)]
          (fun _ => false) (fun _ => false)).attempts := by
  refine ⟨rfl, by decide, by decide⟩

/-- C3.  For any two registered providers A ≠ B: a prior
`generate_completion` call on a registry with both healthy, in which A's
call raises (and its reinitialization fails to restore it) and B's
succeeds, attempts A exactly once — never again after marking it
unhealthy — and leaves A unhealthy and B healthy.  Every subsequent call
on the resulting health table, for any preferred provider and any
provider behaviour, attempts exactly B and never touches A's handle. -/
theorem generate_fallback_skips_unhealthy_provider
    (A B : LLMProvider) (hAB : A ≠ B) (preferred : Option LLMProvider)
    (outcome reinitOk : LLMProvider → Bool) :
    (generate_completion none [(A, true), (B, true)]
        (fun p => decide (p = B)) (fun _ => false)).attempts = [A, B]
    ∧ (generate_completion none [(A, true), (B, true)]
        (fun p => decide (p = B)) (fun _ => false)).health = [(A, false), (B, true)]
    ∧ (generate_completion preferred [(A, false), (B, true)]
        outcome reinitOk).attempts = [B]
    ∧ A ∉ (generate_completion preferred [(A, false), (B, true)]
        outcome reinitOk).attempts := by
  have hBA : ¬ B = A := fun h => hAB h.symm
  have hprior : generate_completion none [(A, true), (B, true)]
      (fun p => decide (p = B)) (fun _ => false) =
      { success := some B, lastError := some A, attempts := [A, B],
        health := [(A, false), (B, true)] } := by
    unfold generate_completion providersToTry get_available_providers
    simp only [List.filter, List.map]
    unfold tryProviders
    simp [hAB, hBA, setHealth, tryProviders]
  have hq : providersToTry preferred [(A, false), (B, true)] = [B] := by
    unfold providersToTry get_available_providers
    cases preferred with
    | none => simp
    | some p =>
      by_cases hp : p = B
      · subst hp
        simp [List.filter]
      · simp [List.filter, hp]
  have hsub : (generate_completion preferred [(A, false), (B, true)]
      outcome reinitOk).attempts = [B] := by
    rw [generate_completion, hq]
    by_cases h : outcome B
    · simp [tryProviders, h]
    · simp [tryProviders, h]
  refine ⟨by rw [hprior], by rw [hprior], hsub, ?_⟩
  rw [hsub]
  simp [hAB]

/-- Witness for C3 at A = openai, B = anthropic, with the subsequent
call succeeding on its first attempt. -/
theorem generate_fallback_skips_unhealthy_provider_witness :
    (generate_completion none [(LLMProvider.openai, true), (LLMProvider.anthropic, true)]
        (fun p => decide (p = LLMProvider.anthropic)) (fun _ => false)).attempts =
      [LLMProvider.openai, LLMProvider.anthropic]
    ∧ (generate_completion none [(LLMProvider.openai, true), (LLMProvider.anthropic, true)]
        (fun p => decide (p = LLMProvider.anthropic)) (fun _ => false)).health =
      [(LLMProvider.openai, false), (LLMProvider.anthropic, true)]
    ∧ (generate_completion none [(LLMProvider.openai, false), (LLMProvider.anthropic, true)]
        (fun _ => true) (fun _ => false)).attempts = [LLMProvider.anthropic]
    ∧ LLMProvider.openai ∉
        (generate_completion none [(LLMProvider.openai, false), (LLMProvider.anthropic, true)]
          (fun _ => true) (fun _ => false)).attempts :=
  generate_fallback_skips_unhealthy_provider LLMProvider.openai LLMProvider.anthropic
    (by decide) none (fun _ => true) (fun _ => false)

/-! ## Agent task execution (`app/agents/base_agent.py`) -/

/-- The `AgentState` enum of `app/models/agent.py`. -/
inductive AgentState
  | idle
  | working
  | error
  | maintenance
deriving DecidableEq, Repr

/-- The `AgentMetrics` model of `app/models/agent.py`, restricted to the
fields written by `execute_task` (`last_task_completed` and
`total_uptime` are wall-clock timestamps, not used by any claim).
Durations and rates are rationals standing for Python floats. -/
structure AgentMetrics where
  tasks_completed : ℕ
  tasks_failed : ℕ
  average_task_duration : Option ℚ
  success_rate : ℚ
deriving DecidableEq, Repr

/-- The default `AgentMetrics()` record. -/
def AgentMetrics.init : AgentMetrics :=
  { tasks_completed := 0, tasks_failed := 0,
    average_task_duration := none, success_rate := 0 }

/-- Outcome of one `process_task` call inside `execute_task`: it either
returns (after `duration` seconds) or raises. -/
inductive TaskOutcome
  | success (duration : ℚ)
  | failure
deriving DecidableEq, Repr

/-- The metrics update performed by `BaseAgent.execute_task`: on success
it increments the completed count, folds the duration into
`average_task_duration` with divisor `tasks_completed + tasks_failed`
(first completion just stores the duration), and recomputes
`success_rate`; on a raised exception it increments the failed count and
recomputes `success_rate` (0 when nothing has ever run). -/
def execute_task_metrics (m : AgentMetrics) : TaskOutcome → AgentMetrics
  | .success d =>
    let completed := m.tasks_completed + 1
    let avg : ℚ :=
      match m.average_task_duration with
      | none => d
      | some a =>
        let total := completed + m.tasks_failed
        (a * ((total : ℚ) - 1) + d) / (total : ℚ)
    { tasks_completed := completed, tasks_failed := m.tasks_failed,
      average_task_duration := some avg,
      success_rate := (completed : ℚ) / ((completed + m.tasks_failed : ℕ) : ℚ) }
  | .failure =>
    let failed := m.tasks_failed + 1
    let total := m.tasks_completed + failed
    { tasks_completed := m.tasks_completed, tasks_failed := failed,
      average_task_duration := m.average_task_duration,
      success_rate :=
        if 0 < total then (m.tasks_completed : ℚ) / ((total : ℕ) : ℚ) else 0 }

/-- Metrics after a sequence of task executions, starting from a freshly
constructed agent. -/
def runMetrics (os : List TaskOutcome) : AgentMetrics :=
  os.foldl execute_task_metrics AgentMetrics.init

/-- The durations of the successfully completed tasks of a sequence. -/
def completedDurations (os : List TaskOutcome) : List ℚ :=
  os.filterMap fun o =>
    match o with
    | .success d => some d
    | .failure => none

/-- Modelled from the spec's words (§8): the "naive recomputation from
the full duration list" — the true running mean of all completed-task
durations, `none` when none has completed. -/
def naiveMeanDuration (durations : List ℚ) : Option ℚ :=
  if durations = [] then none else some (durations.sum / (durations.length : ℚ))

theorem runMetrics_append (os : List TaskOutcome) (o : TaskOutcome) :
    runMetrics (os ++ [o]) = execute_task_metrics (runMetrics os) o := by
  simp [runMetrics, List.foldl_append]

/-- Both branches of `execute_task` recompute `success_rate` as
`tasks_completed / (tasks_completed + tasks_failed)` of the updated
counters. -/
theorem execute_task_metrics_rate (m : AgentMetrics) (o : TaskOutcome) :
    (execute_task_metrics m o).success_rate =
      ((execute_task_metrics m o).tasks_completed : ℚ) /
        (((execute_task_metrics m o).tasks_completed : ℚ) +
          ((execute_task_metrics m o).tasks_failed : ℚ)) := by
  cases o with
  | success d =>
    simp only [execute_task_metrics]
    push_cast
    ring_nf
  | failure =>
    have h : 0 < m.tasks_completed + (m.tasks_failed + 1) := by omega
    simp only [execute_task_metrics, if_pos h]
    push_cast
    ring_nf

/-- The stored success rate is completed/(completed+failed) of the
stored counters after every run (shared helper). -/
theorem runMetrics_rate (os : List TaskOutcome) :
    (runMetrics os).success_rate =
      ((runMetrics os).tasks_completed : ℚ) /
        (((runMetrics os).tasks_completed : ℚ) +
          ((runMetrics os).tasks_failed : ℚ)) := by
  induction os using List.reverseRecOn with
  | nil => simp [runMetrics, AgentMetrics.init]
  | append_singleton os o ih =>
    rw [runMetrics_append]
    exact execute_task_metrics_rate _ o

/-- A ratio of a count to a (possibly zero) larger count lies in [0,1]
(in `ℚ`, division by zero yields 0). -/
theorem count_ratio_bounds (c f : ℕ) :
    0 ≤ (c : ℚ) / ((c : ℚ) + (f : ℚ)) ∧ (c : ℚ) / ((c : ℚ) + (f : ℚ)) ≤ 1 := by
  constructor
  · positivity
  · rcases Nat.eq_zero_or_pos (c + f) with h | h
    · have hc : c = 0 := by omega
      subst hc
      simp
    · have hpos : (0 : ℚ) < (c : ℚ) + (f : ℚ) := by exact_mod_cast h
      rw [div_le_one hpos]
      exact le_add_of_nonneg_right (by positivity)

/-- C5.  After any sequence of task executions the stored success rate
equals completed/(completed+failed) of the stored counters, and it is 0
for the fresh agent (before any task has run). -/
theorem success_rate_invariant (os : List TaskOutcome) :
    (runMetrics os).success_rate =
      ((runMetrics os).tasks_completed : ℚ) /
        (((runMetrics os).tasks_completed : ℚ) +
          ((runMetrics os).tasks_failed : ℚ))
    ∧ (os = [] → (runMetrics os).success_rate = 0) := by
  refine ⟨runMetrics_rate os, ?_⟩
  intro h
  subst h
  rfl

/-- Witness for C5 at a concrete two-task run. -/
theorem success_rate_invariant_witness :
    (runMetrics [TaskOutcome.success 3, TaskOutcome.failure]).success_rate =
      ((runMetrics [TaskOutcome.success 3, TaskOutcome.failure]).tasks_completed : ℚ) /
        (((runMetrics [TaskOutcome.success 3, TaskOutcome.failure]).tasks_completed : ℚ) +
          ((runMetrics [TaskOutcome.success 3, TaskOutcome.failure]).tasks_failed : ℚ)) :=
  (success_rate_invariant [TaskOutcome.success 3, TaskOutcome.failure]).1

/-- On an all-success run the counters count the run and the stored
average is the true mean of the durations. -/
theorem runMetrics_all_success (ds : List ℚ) :
    (runMetrics (ds.map TaskOutcome.success)).tasks_completed = ds.length
    ∧ (runMetrics (ds.map TaskOutcome.success)).tasks_failed = 0
    ∧ (runMetrics (ds.map TaskOutcome.success)).average_task_duration =
        naiveMeanDuration ds := by
  induction ds using List.reverseRecOn with
  | nil => exact ⟨rfl, rfl, rfl⟩
  | append_singleton ds d ih =>
    obtain ⟨hc, hf, ha⟩ := ih
    have hmap : (ds ++ [d]).map TaskOutcome.success
        = ds.map TaskOutcome.success ++ [TaskOutcome.success d] := by simp
    rw [hmap, runMetrics_append]
    by_cases hd : ds = []
    · subst hd
      refine ⟨rfl, rfl, ?_⟩
      simp only [runMetrics, List.map_nil, List.foldl_nil] at ha ⊢
      simp only [execute_task_metrics, AgentMetrics.init, naiveMeanDuration]
      norm_num
    · have hlenQ : ((ds.length : ℚ)) ≠ 0 := by
        have : ds.length ≠ 0 := fun h => hd (List.length_eq_zero.mp h)
        exact_mod_cast this
      have ha' : (runMetrics (ds.map TaskOutcome.success)).average_task_duration
          = some (ds.sum / (ds.length : ℚ)) := by
        rw [ha, naiveMeanDuration, if_neg hd]
      refine ⟨?_, ?_, ?_⟩
      · simp [execute_task_metrics, hc]
      · simp [execute_task_metrics, hf]
      · simp only [execute_task_metrics, ha', hc, hf]
        rw [naiveMeanDuration, if_neg (by simp)]
        congr 1
        push_cast
        field_simp

/-- C4, amended.  In a run without failures (every task completes) the
stored average duration after each completed task is the true running
mean of the completed-task durations. -/
theorem average_duration_true_mean_without_failures (ds : List ℚ) :
    (runMetrics (ds.map TaskOutcome.success)).average_task_duration =
      naiveMeanDuration (completedDurations (ds.map TaskOutcome.success)) := by
  have hcd : completedDurations (ds.map TaskOutcome.success) = ds := by
    induction ds with
    | nil => rfl
    | cons d ds ih => simpa [completedDurations] using ih
  rw [hcd]
  exact (runMetrics_all_success ds).2.2

/-- Counterexample to C4 as stated: after the run
[failure, success (2 s), success (8 s)] the stored average is
(2·2 + 8)/3 = 4 — the divisor counts the failed task — while the true
mean of the completed durations is (2+8)/2 = 5. -/
theorem average_duration_counterexample :
    (runMetrics [TaskOutcome.failure, TaskOutcome.success 2,
        TaskOutcome.success 8]).average_task_duration = some 4
    ∧ naiveMeanDuration (completedDurations
        [TaskOutcome.failure, TaskOutcome.success 2, TaskOutcome.success 8]) = some 5
    ∧ (runMetrics [TaskOutcome.failure, TaskOutcome.success 2,
        TaskOutcome.success 8]).average_task_duration ≠
      naiveMeanDuration (completedDurations
        [TaskOutcome.failure, TaskOutcome.success 2, TaskOutcome.success 8]) := by
  refine ⟨?_, ?_, ?_⟩
  · simp [runMetrics, execute_task_metrics, AgentMetrics.init]
    norm_num
  · simp [completedDurations, naiveMeanDuration]
    norm_num
  · simp [runMetrics, execute_task_metrics, AgentMetrics.init,
      completedDurations, naiveMeanDuration]
    norm_num

/-- The health-score computation of `BaseAgent.get_status`: start from
the stored success rate, halve it when the agent state is Error, and
take 80% of it when the last activity (if any was ever recorded) is more
than 3600 seconds before `now`.  Times are seconds as rationals. -/
def health_score (success_rate : ℚ) (state : AgentState)
    (last_activity : Option ℚ) (now : ℚ) : ℚ :=
  let h := success_rate
  let h := if state = AgentState.error then h * 0.5 else h
  match last_activity with
  | some t => if now - t > 3600 then h * 0.8 else h
  | none => h

/-- The staleness test of `get_status`: a recorded last activity more
than one hour before `now` (never stale when no activity was ever
recorded). -/
def isStale (last_activity : Option ℚ) (now : ℚ) : Bool :=
  match last_activity with
  | some t => decide (now - t > 3600)
  | none => false

/-- Modelled from the spec's words (§8): health score =
`success_rate * (0.5 if state==Error else 1) * (0.8 if stale else 1)`,
the two penalties compounding multiplicatively. -/
def health_score_spec (rate : ℚ) (state : AgentState) (stale : Bool) : ℚ :=
  rate * (if state = AgentState.error then 0.5 else 1) * (if stale then 0.8 else 1)

/-- C8.  For the stored success rate of any run, the derived health
score equals the success rate multiplied by 0.5 when the state is Error
and by 0.8 when the last activity is over an hour old (penalties
compounding), and it always lies in [0,1]. -/
theorem health_score_correct (os : List TaskOutcome) (state : AgentState)
    (last_activity : Option ℚ) (now : ℚ) :
    health_score ((runMetrics os).success_rate) state last_activity now =
      health_score_spec ((runMetrics os).success_rate) state
        (isStale last_activity now)
    ∧ 0 ≤ health_score ((runMetrics os).success_rate) state last_activity now
    ∧ health_score ((runMetrics os).success_rate) state last_activity now ≤ 1 := by
  have hrate := runMetrics_rate os
  obtain ⟨h0, h1⟩ := count_ratio_bounds (runMetrics os).tasks_completed
    (runMetrics os).tasks_failed
  rw [← hrate] at h0 h1
  set r := (runMetrics os).success_rate with hr
  cases last_activity with
  | none =>
    by_cases herr : state = AgentState.error <;>
      constructor <;>
      simp [health_score, health_score_spec, isStale, herr] <;>
      constructor <;> nlinarith
  | some t =>
    by_cases herr : state = AgentState.error <;>
      by_cases hstale : now - t > 3600 <;>
      constructor <;>
      simp [health_score, health_score_spec, isStale, herr, hstale] <;>
      constructor <;> nlinarith

/-! ## Orchestrator (`app/services/book_generation_service.py`) -/

/-- The `BookStatus` enum of `app/models/book.py`. -/
inductive BookStatus
  | pending
  | researching
  | generating_outline
  | writing_content
  | reviewing
  | completed
  | failed
  | cancelled
deriving DecidableEq, Repr

/-- One chapter entry of the produced book content (`ChapterContent` in
`app/models/book.py`); only its presence matters to the quality review. -/
structure ChapterContent where
  chapter_number : ℕ
  title : String
  content : String
  word_count : ℕ
deriving DecidableEq, Repr

/-- The produced artifact as read by `_perform_quality_review`:
`introduction`/`conclusion` are optional strings (Python truthiness:
`None` and `""` are falsy), `chapters` a list, `word_count` the stored
total. -/
structure BookContent where
  title : String
  introduction : Option String
  chapters : List ChapterContent
  conclusion : Option String
  word_count : ℕ
deriving DecidableEq, Repr

/-- Python truthiness of an optional string. -/
def truthyStr : Option String → Bool
  | some s => if s = "" then false else true
  | none => false

/-- `BookGenerationService._perform_quality_review`: base 0.7, word-count
bonus (0.15 from 15000 words, else 0.1 from 8000), chapter-structure
bonus (0.1 for 5–12 chapters), all-sections bonus (0.05 when
introduction, chapters and conclusion are all truthy), capped at 1.0. -/
def perform_quality_review (book_content : BookContent) : ℚ :=
  let word_count := book_content.word_count
  let chapter_count := book_content.chapters.length
  let quality_score : ℚ := 0.7
  let quality_score :=
    if word_count ≥ 15000 then quality_score + 0.15
    else if word_count ≥ 8000 then quality_score + 0.1
    else quality_score
  let quality_score :=
    if 5 ≤ chapter_count ∧ chapter_count ≤ 12 then quality_score + 0.1
    else quality_score
  let quality_score :=
    if truthyStr book_content.introduction
        ∧ book_content.chapters ≠ [] ∧ truthyStr book_content.conclusion
    then quality_score + 0.05
    else quality_score
  min 1 quality_score

/-- Modelled from the claim's words: base 0.7, plus 0.15 if total word
count ≥ 15000 else 0.1 if ≥ 8000, plus 0.1 if the chapter count is
between 5 and 12 inclusive, plus 0.05 if introduction, chapters and
conclusion are all non-empty, capped at 1.0. -/
def qualityScoreClaim (book_content : BookContent) : ℚ :=
  min 1 (0.7
    + (if book_content.word_count ≥ 15000 then 0.15
       else if book_content.word_count ≥ 8000 then 0.1 else 0)
    + (if 5 ≤ book_content.chapters.length ∧ book_content.chapters.length ≤ 12
       then 0.1 else 0)
    + (if truthyStr book_content.introduction
          ∧ book_content.chapters ≠ [] ∧ truthyStr book_content.conclusion
       then 0.05 else 0))

/-- C7.  The Reviewing-stage quality score is exactly the deterministic
function of the artifact that the claim describes. -/
theorem quality_review_deterministic (book_content : BookContent) :
    perform_quality_review book_content = qualityScoreClaim book_content := by
  by_cases h1 : book_content.word_count ≥ 15000 <;>
  by_cases h2 : book_content.word_count ≥ 8000 <;>
  by_cases h3 : 5 ≤ book_content.chapters.length ∧ book_content.chapters.length ≤ 12 <;>
  by_cases h4 : truthyStr book_content.introduction
      ∧ book_content.chapters ≠ [] ∧ truthyStr book_content.conclusion <;>
  simp [perform_quality_review, qualityScoreClaim, h1, h2, h3, h4]

/-- One active-generation record (the dict stored in
`self.active_generations[book_id]`), restricted to the fields the claims
read: lifecycle status, progress percentage, current stage message, and
the error string recorded on failure.  Timestamps are elided. -/
structure JobRec where
  status : BookStatus
  progress : ℕ
  current_stage : String
  error : Option String
deriving DecidableEq, Repr

/-- The fresh record installed at the top of `generate_book_async`. -/
def initJobRec : JobRec :=
  { status := BookStatus.pending, progress := 0,
    current_stage := "initializing", error := none }

/-- One completed-book record (the dict stored in
`self.completed_books[book_id]`); of its payload only the quality score
is modelled, the rest is irrelevant to the claims. -/
structure CompletedRec where
  quality_score : ℚ
deriving DecidableEq, Repr

/-- A Python dict keyed by job id, as an insertion-ordered association
list with unique keys. -/
def lookupTable {α : Type} (t : List (ℕ × α)) (id : ℕ) : Option α :=
  match t.find? fun e => e.1 = id with
  | some e => some e.2
  | none => none

/-- `id in table`. -/
def containsTable {α : Type} (t : List (ℕ × α)) (id : ℕ) : Bool :=
  (lookupTable t id).isSome

/-- `table[id] = v` (overwrites, or appends a fresh key). -/
def setTable {α : Type} (t : List (ℕ × α)) (id : ℕ) (v : α) : List (ℕ × α) :=
  if containsTable t id then t.map fun e => if e.1 = id then (id, v) else e
  else t ++ [(id, v)]

/-- `del table[id]`. -/
def removeTable {α : Type} (t : List (ℕ × α)) (id : ℕ) : List (ℕ × α) :=
  t.filter fun e => ¬ e.1 = id

/-- In-place mutation of the record stored under an existing key. -/
def updateTable {α : Type} (t : List (ℕ × α)) (id : ℕ) (f : α → α) : List (ℕ × α) :=
  t.map fun e => if e.1 = id then (id, f e.2) else e

/-- The key list of a table. -/
def tableKeys {α : Type} (t : List (ℕ × α)) : List ℕ :=
  t.map Prod.fst

/-- The in-memory job store of `BookGenerationService`. -/
structure BookService where
  active_generations : List (ℕ × JobRec)
  completed_books : List (ℕ × CompletedRec)
deriving DecidableEq, Repr

/-- The service right after `__init__`. -/
def emptyService : BookService := { active_generations := [], completed_books := [] }

/-- The record mutation `_update_book_status` performs on the stored
dict: set status and stage message, and progress when one is supplied. -/
def applyStatusRec (status : BookStatus) (progress : Option ℕ) (message : String)
    (r : JobRec) : JobRec :=
  { r with
    status := status,
    current_stage := message,
    progress := (match progress with | some p => p | none => r.progress) }

/-- The record mutation of the failure handler:
`active_generations[book_id]["error"] = str(e)`. -/
def setErrorRec (msg : String) (r : JobRec) : JobRec :=
  { r with error := some msg }

/-- The record mutation of `cancel_generation`. -/
def cancelRec (r : JobRec) : JobRec :=
  { r with status := BookStatus.cancelled }

/-- `BookGenerationService._update_book_status`: when the job id is in
the active table, overwrite its status and stage message and, when a
progress value is supplied, its progress; otherwise do nothing at
all. -/
def update_book_status (s : BookService) (book_id : ℕ) (status : BookStatus)
    (progress : Option ℕ) (message : String) : BookService :=
  if containsTable s.active_generations book_id then
    { s with active_generations :=
        updateTable s.active_generations book_id (applyStatusRec status progress message) }
  else s

/-- The observable steps a `generate_book_async` background task performs
after installing its initial record: a `_update_book_status` call, the
`active_generations[book_id]["error"] = str(e)` write of the failure
handler (a no-op when the record is gone), or the terminal-success block
that stores the completed record and deletes the active one. -/
inductive OrchEvent
  | setStatus (status : BookStatus) (progress : Option ℕ) (message : String)
  | recordError (msg : String)
  | moveToCompleted (data : CompletedRec)
deriving DecidableEq, Repr

/-- Effect of one background-task event on the store. -/
def applyEvent (s : BookService) (book_id : ℕ) : OrchEvent → BookService
  | OrchEvent.setStatus st p msg => update_book_status s book_id st p msg
  | OrchEvent.recordError msg =>
      if containsTable s.active_generations book_id then
        { s with active_generations :=
            updateTable s.active_generations book_id (setErrorRec msg) }
      else s
  | OrchEvent.moveToCompleted data =>
      { s with completed_books := setTable s.completed_books book_id data,
               active_generations := removeTable s.active_generations book_id }

/-- The event sequence of one `generate_book_async` run after its initial
insertion, as a function of whether the research stage and the content
stage report success (`qs` is the computed quality score, `errMsg` the
error string of the failing stage). -/
def bookEvents (researchOk contentOk : Bool) (qs : ℚ) (errMsg : String) :
    List OrchEvent :=
  OrchEvent.setStatus BookStatus.researching (some 5) "Starting research phase" ::
  (if researchOk then
    OrchEvent.setStatus BookStatus.generating_outline (some 30)
        "Research completed, generating outline" ::
    (if contentOk then
      [OrchEvent.setStatus BookStatus.reviewing (some 85)
          "Content generated, reviewing quality",
       OrchEvent.setStatus BookStatus.completed (some 100)
          "Book generation completed",
       OrchEvent.moveToCompleted { quality_score := qs }]
    else
      [OrchEvent.setStatus BookStatus.failed none errMsg,
       OrchEvent.recordError errMsg])
  else
    [OrchEvent.setStatus BookStatus.failed none errMsg,
     OrchEvent.recordError errMsg])

/-- The status/progress pair a single event reports, if any. -/
def eventStatus : OrchEvent → Option (BookStatus × Option ℕ)
  | OrchEvent.setStatus st p _ => some (st, p)
  | _ => none

/-- The sequence of (status, progress) values a job record passes
through during one `generate_book_async` run: the initial Pending record
at progress 0 followed by every `_update_book_status` call. -/
def generationStatusTrace (researchOk contentOk : Bool) :
    List (BookStatus × Option ℕ) :=
  (BookStatus.pending, some 0) ::
    (bookEvents researchOk contentOk 0 "error").filterMap eventStatus

/-- Pipeline position of each status; the three terminal states share
the final position (they are absorbing). -/
def stageIndex : BookStatus → ℕ
  | BookStatus.pending => 0
  | BookStatus.researching => 1
  | BookStatus.generating_outline => 2
  | BookStatus.writing_content => 3
  | BookStatus.reviewing => 4
  | BookStatus.completed => 5
  | BookStatus.failed => 5
  | BookStatus.cancelled => 5

/-- Executable check that consecutive statuses move strictly forward. -/
def strictlyForward : List BookStatus → Bool
  | a :: b :: rest => decide (stageIndex a < stageIndex b) && strictlyForward (b :: rest)
  | _ => true

theorem contains_iff {α : Type} (t : List (ℕ × α)) (id : ℕ) :
    containsTable t id = true ↔ id ∈ tableKeys t := by
  constructor
  · intro h
    unfold containsTable lookupTable at h
    cases hf : t.find? fun e => e.1 = id with
    | none => rw [hf] at h; simp at h
    | some e =>
      have hm := List.mem_of_find?_eq_some hf
      have hp : e.1 = id := by simpa using List.find?_some hf
      exact hp ▸ List.mem_map_of_mem Prod.fst hm
  · intro h
    obtain ⟨e, he, hfst⟩ := List.mem_map.mp h
    unfold containsTable lookupTable
    cases hf : t.find? fun e => e.1 = id with
    | some e' => simp
    | none =>
      exfalso
      have := List.find?_eq_none.mp hf e he
      simp [hfst] at this

theorem tableKeys_updateTable {α : Type} (t : List (ℕ × α)) (id : ℕ) (f : α → α) :
    tableKeys (updateTable t id f) = tableKeys t := by
  unfold tableKeys updateTable
  rw [List.map_map]
  apply List.map_congr_left
  intro e _
  by_cases h : e.1 = id
  · simp [h]
  · simp [h]

theorem mem_tableKeys_setTable {α : Type} (t : List (ℕ × α)) (id : ℕ) (v : α)
    (q : ℕ) : q ∈ tableKeys (setTable t id v) ↔ q ∈ tableKeys t ∨ q = id := by
  unfold setTable
  by_cases h : containsTable t id
  · rw [if_pos h]
    have hsame : (t.map fun e => if e.1 = id then (id, v) else e) =
        updateTable t id (fun _ => v) := rfl
    rw [hsame, tableKeys_updateTable]
    constructor
    · exact Or.inl
    · rintro (hm | rfl)
      · exact hm
      · exact (contains_iff t q).mp h
  · rw [if_neg h]
    simp [tableKeys]

theorem mem_tableKeys_removeTable {α : Type} (t : List (ℕ × α)) (id q : ℕ) :
    q ∈ tableKeys (removeTable t id) ↔ q ∈ tableKeys t ∧ ¬ q = id := by
  unfold tableKeys removeTable
  simp only [List.mem_map, List.mem_filter, decide_not, Bool.not_eq_true',
    decide_eq_false_iff_not]
  constructor
  · rintro ⟨e, ⟨he, hne⟩, rfl⟩
    exact ⟨⟨e, he, rfl⟩, hne⟩
  · rintro ⟨⟨e, he, rfl⟩, hne⟩
    exact ⟨e, ⟨he, hne⟩, rfl⟩

/-- The public service operations interleavable on the event loop: the
initial record insertion of `generate_book_async` (with a fresh uuid4
id), any later step of that background task, `delete_book`, and
`cancel_generation`. -/
inductive ServiceOp
  | startJob (book_id : ℕ)
  | jobEvent (book_id : ℕ) (ev : OrchEvent)
  | deleteBook (book_id : ℕ)
  | cancelGeneration (book_id : ℕ)
deriving DecidableEq, Repr

/-- Effect of one operation on the store (`generate_book_async` line 37,
`applyEvent`, `delete_book`, `cancel_generation`). -/
def applyOp (s : BookService) : ServiceOp → BookService
  | ServiceOp.startJob id =>
      { s with active_generations := setTable s.active_generations id initJobRec }
  | ServiceOp.jobEvent id ev => applyEvent s id ev
  | ServiceOp.deleteBook id =>
      if containsTable s.active_generations id then
        { s with active_generations := removeTable s.active_generations id }
      else if containsTable s.completed_books id then
        { s with completed_books := removeTable s.completed_books id }
      else s
  | ServiceOp.cancelGeneration id =>
      if containsTable s.active_generations id then
        { s with active_generations :=
            updateTable s.active_generations id cancelRec }
      else s

/-- `api/books.py` creates every job with a fresh `uuid4` id, so a
started job's id is new to both tables; no other operation is
constrained. -/
def LegalOp (s : BookService) : ServiceOp → Prop
  | ServiceOp.startJob id =>
      containsTable s.active_generations id = false
      ∧ containsTable s.completed_books id = false
  | _ => True

/-- Store states reachable from the fresh service by legal operations. -/
inductive Reachable : BookService → Prop
  | init : Reachable emptyService
  | step {s : BookService} {op : ServiceOp} :
      Reachable s → LegalOp s op → Reachable (applyOp s op)

/-- No job id is held by both tables. -/
def TablesDisjoint (s : BookService) : Prop :=
  ∀ id : ℕ,
    ¬ (id ∈ tableKeys s.active_generations ∧ id ∈ tableKeys s.completed_books)

/-- `_update_book_status` changes no table's key set. -/
theorem update_book_status_keys (s : BookService) (id : ℕ) (st : BookStatus)
    (p : Option ℕ) (msg : String) :
    tableKeys (update_book_status s id st p msg).active_generations =
      tableKeys s.active_generations
    ∧ (update_book_status s id st p msg).completed_books = s.completed_books := by
  unfold update_book_status
  by_cases h : containsTable s.active_generations id
  · rw [if_pos h]
    exact ⟨tableKeys_updateTable _ _ _, rfl⟩
  · rw [if_neg h]
    exact ⟨rfl, rfl⟩

/-- Recording an error string changes no table's key set. -/
theorem recordError_keys (s : BookService) (id : ℕ) (msg : String) :
    tableKeys (applyEvent s id (OrchEvent.recordError msg)).active_generations =
      tableKeys s.active_generations
    ∧ (applyEvent s id (OrchEvent.recordError msg)).completed_books =
        s.completed_books := by
  have hshape : applyEvent s id (OrchEvent.recordError msg) =
      (if containsTable s.active_generations id then
        { s with active_generations :=
            updateTable s.active_generations id (setErrorRec msg) }
      else s) := rfl
  rw [hshape]
  by_cases h : containsTable s.active_generations id
  · rw [if_pos h]
    exact ⟨tableKeys_updateTable _ _ _, rfl⟩
  · rw [if_neg h]
    exact ⟨rfl, rfl⟩

/-- Cancelling changes no table's key set. -/
theorem cancel_keys (s : BookService) (id : ℕ) :
    tableKeys (applyOp s (ServiceOp.cancelGeneration id)).active_generations =
      tableKeys s.active_generations
    ∧ (applyOp s (ServiceOp.cancelGeneration id)).completed_books =
        s.completed_books := by
  have hshape : applyOp s (ServiceOp.cancelGeneration id) =
      (if containsTable s.active_generations id then
        { s with active_generations := updateTable s.active_generations id cancelRec }
      else s) := rfl
  rw [hshape]
  by_cases h : containsTable s.active_generations id
  · rw [if_pos h]
    exact ⟨tableKeys_updateTable _ _ _, rfl⟩
  · rw [if_neg h]
    exact ⟨rfl, rfl⟩

theorem applyOp_preserves_disjoint (s : BookService) (op : ServiceOp)
    (hd : TablesDisjoint s) (hl : LegalOp s op) :
    TablesDisjoint (applyOp s op) := by
  cases op with
  | startJob id =>
    rintro q ⟨ha, hc⟩
    have ha' : q ∈ tableKeys (setTable s.active_generations id initJobRec) := ha
    have hc' : q ∈ tableKeys s.completed_books := hc
    rcases (mem_tableKeys_setTable s.active_generations id initJobRec q).mp ha' with
      hm | rfl
    · exact hd q ⟨hm, hc'⟩
    · have := (contains_iff s.completed_books q).mpr hc'
      rw [hl.2] at this
      exact Bool.false_ne_true this
  | jobEvent id ev =>
    cases ev with
    | setStatus st p msg =>
      rintro q ⟨ha, hc⟩
      obtain ⟨hk, hcb⟩ := update_book_status_keys s id st p msg
      have ha' : q ∈ tableKeys (update_book_status s id st p msg).active_generations := ha
      have hc' : q ∈ tableKeys (update_book_status s id st p msg).completed_books := hc
      rw [hk] at ha'
      rw [hcb] at hc'
      exact hd q ⟨ha', hc'⟩
    | recordError msg =>
      rintro q ⟨ha, hc⟩
      obtain ⟨hk, hcb⟩ := recordError_keys s id msg
      have ha' : q ∈ tableKeys (applyEvent s id (OrchEvent.recordError msg)).active_generations := ha
      have hc' : q ∈ tableKeys (applyEvent s id (OrchEvent.recordError msg)).completed_books := hc
      rw [hk] at ha'
      rw [hcb] at hc'
      exact hd q ⟨ha', hc'⟩
    | moveToCompleted data =>
      rintro q ⟨ha, hc⟩
      have ha' : q ∈ tableKeys (removeTable s.active_generations id) := ha
      have hc' : q ∈ tableKeys (setTable s.completed_books id data) := hc
      obtain ⟨hmem, hne⟩ :=
        (mem_tableKeys_removeTable s.active_generations id q).mp ha'
      rcases (mem_tableKeys_setTable s.completed_books id data q).mp hc' with
        hm | rfl
      · exact hd q ⟨hmem, hm⟩
      · exact hne rfl
  | deleteBook id =>
    rintro q ⟨ha, hc⟩
    have hshape : applyOp s (ServiceOp.deleteBook id) =
        (if containsTable s.active_generations id then
          { s with active_generations := removeTable s.active_generations id }
        else if containsTable s.completed_books id then
          { s with completed_books := removeTable s.completed_books id }
        else s) := rfl
    rw [hshape] at ha hc
    by_cases h1 : containsTable s.active_generations id
    · rw [if_pos h1] at ha hc
      have ha' : q ∈ tableKeys (removeTable s.active_generations id) := ha
      obtain ⟨hmem, -⟩ := (mem_tableKeys_removeTable s.active_generations id q).mp ha'
      exact hd q ⟨hmem, hc⟩
    · rw [if_neg h1] at ha hc
      by_cases h2 : containsTable s.completed_books id
      · rw [if_pos h2] at ha hc
        have hc' : q ∈ tableKeys (removeTable s.completed_books id) := hc
        obtain ⟨hmem, -⟩ := (mem_tableKeys_removeTable s.completed_books id q).mp hc'
        exact hd q ⟨ha, hmem⟩
      · rw [if_neg h2] at ha hc
        exact hd q ⟨ha, hc⟩
  | cancelGeneration id =>
    rintro q ⟨ha, hc⟩
    obtain ⟨hk, hcb⟩ := cancel_keys s id
    rw [hk] at ha
    rw [hcb] at hc
    exact hd q ⟨ha, hc⟩

/-- Counterexample to C1 as stated: the success-path status sequence is
Pending, Researching, GeneratingOutline, Reviewing, Completed — the run
reaches Completed without ever passing through WritingContent, which the
claim says is never skipped. -/
theorem success_path_skips_writing_content :
    (generationStatusTrace true true).map Prod.fst =
      [BookStatus.pending, BookStatus.researching, BookStatus.generating_outline,
       BookStatus.reviewing, BookStatus.completed]
    ∧ BookStatus.completed ∈ (generationStatusTrace true true).map Prod.fst
    ∧ BookStatus.writing_content ∉ (generationStatusTrace true true).map Prod.fst := by
  refine ⟨rfl, by decide, by decide⟩

/-- C1, amended.  On the success path the orchestrator's status sequence
moves strictly forward through Pending, Researching, GeneratingOutline,
Reviewing, Completed: it never transitions backward and never skips the
Researching stage before reaching Completed — but the WritingContent
status is skipped (the single content-agent call covers both outline
generation and chapter writing). -/
theorem success_path_strictly_forward :
    strictlyForward ((generationStatusTrace true true).map Prod.fst) = true
    ∧ BookStatus.researching ∈ (generationStatusTrace true true).map Prod.fst
    ∧ ((generationStatusTrace true true).map Prod.fst).getLast? =
        some BookStatus.completed
    ∧ BookStatus.writing_content ∉ (generationStatusTrace true true).map Prod.fst := by
  refine ⟨rfl, by decide, rfl, by decide⟩

/-- C6.  At every reachable store state each job id is held by at most
one of the two tables; the terminal-success step alone introduces an id
into the completed table, moving the record out of the active table; and
deletion removes the id from whichever table held it, leaving it in
neither. -/
theorem job_tables_exclusive (s : BookService) (h : Reachable s) :
    TablesDisjoint s
    ∧ (∀ (id : ℕ) (data : CompletedRec),
        id ∈ tableKeys (applyOp s
            (ServiceOp.jobEvent id (OrchEvent.moveToCompleted data))).completed_books
        ∧ id ∉ tableKeys (applyOp s
            (ServiceOp.jobEvent id (OrchEvent.moveToCompleted data))).active_generations)
    ∧ (∀ (id : ℕ) (op : ServiceOp),
        id ∈ tableKeys (applyOp s op).completed_books →
        id ∈ tableKeys s.completed_books
        ∨ ∃ data : CompletedRec,
            op = ServiceOp.jobEvent id (OrchEvent.moveToCompleted data))
    ∧ (∀ id : ℕ,
        id ∉ tableKeys (applyOp s (ServiceOp.deleteBook id)).active_generations
        ∧ id ∉ tableKeys (applyOp s (ServiceOp.deleteBook id)).completed_books) := by
  have hd : TablesDisjoint s := by
    induction h with
    | init =>
      rintro q ⟨ha, -⟩
      simp [emptyService, tableKeys] at ha
    | step hs hl ih => exact applyOp_preserves_disjoint _ _ ih hl
  refine ⟨hd, ?_, ?_, ?_⟩
  · intro id data
    constructor
    · show id ∈ tableKeys (setTable s.completed_books id data)
      exact (mem_tableKeys_setTable _ _ _ _).mpr (Or.inr rfl)
    · show id ∉ tableKeys (removeTable s.active_generations id)
      intro hmem
      exact ((mem_tableKeys_removeTable _ _ _).mp hmem).2 rfl
  · intro id op hmem
    cases op with
    | startJob q =>
      exact Or.inl hmem
    | jobEvent q ev =>
      cases ev with
      | setStatus st p msg =>
        left
        have := (update_book_status_keys s q st p msg).2
        rw [show (applyOp s (ServiceOp.jobEvent q (OrchEvent.setStatus st p msg))).completed_books
            = (update_book_status s q st p msg).completed_books from rfl, this] at hmem
        exact hmem
      | recordError msg =>
        left
        have := (recordError_keys s q msg).2
        rw [show (applyOp s (ServiceOp.jobEvent q (OrchEvent.recordError msg))).completed_books
            = (applyEvent s q (OrchEvent.recordError msg)).completed_books from rfl, this] at hmem
        exact hmem
      | moveToCompleted data =>
        have hmem' : id ∈ tableKeys (setTable s.completed_books q data) := hmem
        rcases (mem_tableKeys_setTable s.completed_books q data id).mp hmem' with hm | rfl
        · exact Or.inl hm
        · exact Or.inr ⟨data, rfl⟩
    | deleteBook q =>
      left
      have hshape : applyOp s (ServiceOp.deleteBook q) =
          (if containsTable s.active_generations q then
            { s with active_generations := removeTable s.active_generations q }
          else if containsTable s.completed_books q then
            { s with completed_books := removeTable s.completed_books q }
          else s) := rfl
      rw [hshape] at hmem
      by_cases h1 : containsTable s.active_generations q
      · rw [if_pos h1] at hmem
        exact hmem
      · rw [if_neg h1] at hmem
        by_cases h2 : containsTable s.completed_books q
        · rw [if_pos h2] at hmem
          have hmem' : id ∈ tableKeys (removeTable s.completed_books q) := hmem
          exact ((mem_tableKeys_removeTable _ _ _).mp hmem').1
        · rw [if_neg h2] at hmem
          exact hmem
    | cancelGeneration q =>
      left
      rw [(cancel_keys s q).2] at hmem
      exact hmem
  · intro id
    have hshape : applyOp s (ServiceOp.deleteBook id) =
        (if containsTable s.active_generations id then
          { s with active_generations := removeTable s.active_generations id }
        else if containsTable s.completed_books id then
          { s with completed_books := removeTable s.completed_books id }
        else s) := rfl
    rw [hshape]
    by_cases h1 : containsTable s.active_generations id
    · rw [if_pos h1]
      constructor
      · intro hmem
        have hmem' : id ∈ tableKeys (removeTable s.active_generations id) := hmem
        exact ((mem_tableKeys_removeTable _ _ _).mp hmem').2 rfl
      · intro hmem
        exact hd id ⟨(contains_iff _ _).mp h1, hmem⟩
    · rw [if_neg h1]
      by_cases h2 : containsTable s.completed_books id
      · rw [if_pos h2]
        constructor
        · intro hmem
          exact h1 ((contains_iff _ _).mpr hmem)
        · intro hmem
          have hmem' : id ∈ tableKeys (removeTable s.completed_books id) := hmem
          exact ((mem_tableKeys_removeTable _ _ _).mp hmem').2 rfl
      · rw [if_neg h2]
        constructor
        · intro hmem
          exact h1 ((contains_iff _ _).mpr hmem)
        · intro hmem
          exact h2 ((contains_iff _ _).mpr hmem)

/-- Witness for C6 at the concrete reachable state produced by starting
job 0 and completing it. -/
theorem job_tables_exclusive_witness :
    TablesDisjoint (applyOp (applyOp emptyService (ServiceOp.startJob 0))
      (ServiceOp.jobEvent 0 (OrchEvent.moveToCompleted { quality_score := 1 }))) :=
  (job_tables_exclusive _
    (@Reachable.step (applyOp emptyService (ServiceOp.startJob 0))
      (ServiceOp.jobEvent 0 (OrchEvent.moveToCompleted { quality_score := 1 }))
      (@Reachable.step emptyService (ServiceOp.startJob 0) Reachable.init ⟨rfl, rfl⟩)
      trivial)).1

/-- C10.  Calling `_update_book_status` with a job id absent from the
active table returns the store unchanged: both tables and every stored
record are exactly as before. -/
theorem update_status_unknown_id_noop (s : BookService) (book_id : ℕ)
    (status : BookStatus) (progress : Option ℕ) (message : String)
    (h : containsTable s.active_generations book_id = false) :
    update_book_status s book_id status progress message = s := by
  unfold update_book_status
  rw [if_neg]
  rw [h]
  exact Bool.false_ne_true

/-- Witness for C10: a late update for job 2 while only job 1 is active
leaves the store untouched. -/
theorem update_status_unknown_id_noop_witness :
    containsTable (BookService.mk [(1, initJobRec)] []).active_generations 2 = false
    ∧ update_book_status (BookService.mk [(1, initJobRec)] []) 2
        BookStatus.completed (some 50) "late update"
      = BookService.mk [(1, initJobRec)] [] :=
  ⟨rfl, update_status_unknown_id_noop _ 2 _ _ _ rfl⟩

/-! ## Research agent (`app/agents/research_agent.py`) -/

/-- One web-research result dict (title, url, snippet, source marker,
relevance score). -/
structure SourceRec where
  title : String
  url : String
  snippet : String
  source : String
  relevance_score : ℚ
deriving DecidableEq, Repr

/-- Python `sub in s` for strings. -/
def strContains (s sub : String) : Bool :=
  (List.range (s.length + 1)).any fun i => sub.toList.isPrefixOf (s.toList.drop i)

/-- Python `s.lower()`. -/
def pyLower (s : String) : String :=
  String.mk (s.toList.map Char.toLower)

/-- Python `s.strip('- ')`: remove leading and trailing dashes and
spaces. -/
def stripDashSpace (s : String) : String :=
  String.mk (((s.toList.dropWhile fun c => c == '-' || c == ' ').reverse.dropWhile
    fun c => c == '-' || c == ' ').reverse)

/-- Python `content.split("\n\n")`: split at each non-overlapping pair of
newlines, left to right (`cur` accumulates the current section in
reverse). -/
def splitParas : List Char → List Char → List (List Char)
  | cur, '\n' :: '\n' :: rest => cur.reverse :: splitParas [] rest
  | cur, c :: rest => splitParas (c :: cur) rest
  | cur, [] => [cur.reverse]

/-- `ResearchAgent._parse_simulated_research`: every blank-line-separated
section of the LLM output longer than 50 characters becomes one
simulated source, numbered by its position among all sections and marked
`llm_simulation`. -/
def parse_simulated_research (content : String) : List SourceRec :=
  (splitParas [] content.toList).enum.filterMap fun e =>
    if 50 < e.2.length then
      some { title := "Research Source " ++ toString (e.1 + 1),
             url := "https://example-source-" ++ toString (e.1 + 1) ++ ".com",
             snippet := String.mk (e.2.take 200) ++ "...",
             source := "llm_simulation",
             relevance_score := 0.7 }
    else none

/-- The section headers that end a findings block in
`_extract_key_findings`. -/
def findingsHeaders : List String := ["statistics", "expert", "trends", "research"]

/-- `ResearchAgent._extract_key_findings`: stateful line scan — a line
mentioning "key finding" opens the block, a header line closes it, and
bulleted lines inside the block are collected (first 8). -/
def extract_key_findings (content : String) : List String :=
  (((content.splitOn "\n").foldl
    (fun (st : List String × Bool) line =>
      if strContains (pyLower line) "key finding" then (st.1, true)
      else if findingsHeaders.any (fun h => strContains (pyLower line) h) then
        (st.1, false)
      else if st.2 && line.trim.startsWith "-" then
        (st.1 ++ [(stripDashSpace line).trim], st.2)
      else st)
    ([], false)).1).take 8

/-- The numeric indicators of `_extract_statistics`. -/
def statIndicators : List String :=
  ["%", "percent", "billion", "million", "increase", "decrease"]

/-- `ResearchAgent._extract_statistics`: lines containing a numeric
indicator (first 5), each tagged with source "research". -/
def extract_statistics (content : String) : List (String × String) :=
  (((content.splitOn "\n").filter fun line =>
      statIndicators.any fun ind => strContains line ind).map
    fun line => ((stripDashSpace line).trim, "research")).take 5

/-- `ResearchAgent._extract_quotes`: lines containing a double quote or
mentioning "expert" (first 3), each tagged with source "expert". -/
def extract_quotes (content : String) : List (String × String) :=
  (((content.splitOn "\n").filter fun line =>
      strContains line "\"" || strContains (pyLower line) "expert").map
    fun line => ((stripDashSpace line).trim, "expert")).take 3

/-- The section headers that end a trends block in `_extract_trends`. -/
def trendsHeaders : List String := ["finding", "statistics", "expert", "research"]

/-- `ResearchAgent._extract_trends`: like the findings scan, opened by a
line mentioning "trend" (first 5). -/
def extract_trends (content : String) : List String :=
  (((content.splitOn "\n").foldl
    (fun (st : List String × Bool) line =>
      if strContains (pyLower line) "trend" then (st.1, true)
      else if trendsHeaders.any (fun h => strContains (pyLower line) h) then
        (st.1, false)
      else if st.2 && line.trim.startsWith "-" then
        (st.1 ++ [(stripDashSpace line).trim], st.2)
      else st)
    ([], false)).1).take 5

/-- `ResearchAgent._calculate_quality_score`: base 0.6, +0.2 for ≥10
sources else +0.1 for ≥5, +0.1 for "comprehensive" depth, capped at 1. -/
def calculate_quality_score (source_count : ℕ) (research_depth : String) : ℚ :=
  let base : ℚ := 0.6
  let base :=
    if source_count ≥ 10 then base + 0.2
    else if source_count ≥ 5 then base + 0.1
    else base
  let base := if research_depth = "comprehensive" then base + 0.1 else base
  min 1 base

/-- The dict returned by `_organize_findings`: synthesized narrative,
number of gathered web results, and the derived depth tag. -/
structure OrganizedFindings where
  organized_content : String
  source_count : ℕ
  research_depth : String
deriving DecidableEq, Repr

/-- The research bundle returned by `_create_research_summary`
(`research_completed_at` elided). -/
structure ResearchSummary where
  topic : String
  sources : List SourceRec
  key_findings : List String
  statistics : List (String × String)
  expert_quotes : List (String × String)
  trends : List String
  quality_score : ℚ
deriving DecidableEq, Repr

/-- `ResearchAgent._create_research_summary`: the final research bundle;
its `sources` field is the literal empty list (the code stores `[]` with
the comment "Would contain actual sources"). -/
def create_research_summary (topic : String)
    (organized_findings : OrganizedFindings) : ResearchSummary :=
  { topic := topic,
    sources := [],
    key_findings := extract_key_findings organized_findings.organized_content,
    statistics := extract_statistics organized_findings.organized_content,
    expert_quotes := extract_quotes organized_findings.organized_content,
    trends := extract_trends organized_findings.organized_content,
    quality_score := calculate_quality_score organized_findings.source_count
      organized_findings.research_depth }

/-- Counterexample to C9 as stated: even with no web-search backend
configured (so the simulated path runs) the research bundle built by
`_create_research_summary` has an empty source list — never a non-empty
one. -/
theorem research_bundle_sources_empty :
    (create_research_summary "artificial intelligence"
      { organized_content := "Key Findings:\n- a finding",
        source_count := 6, research_depth := "moderate" }).sources = [] := rfl

/-- C9, amended.  The research bundle's `sources` list is always the
empty list; the simulated web results gathered when no search backend is
configured all carry the `llm_simulation` marker in their `source`
field, but they are never copied into the bundle. -/
theorem simulated_research_marker (topic : String) (f : OrganizedFindings)
    (content : String) (r : SourceRec)
    (hr : r ∈ parse_simulated_research content) :
    (create_research_summary topic f).sources = []
    ∧ r.source = "llm_simulation" := by
  constructor
  · rfl
  · obtain ⟨e, -, hsome⟩ := List.mem_filterMap.mp hr
    by_cases h : 50 < e.2.length
    · rw [if_pos h] at hsome
      have he := Option.some.inj hsome
      rw [← he]
    · rw [if_neg h] at hsome
      cases hsome

/-- A 60-character single-section LLM output for the witness. -/
def simContent : String := String.mk (List.replicate 60 'a')

/-- The single simulated source parsed from `simContent`. -/
def simEntry : SourceRec :=
  { title := "Research Source 1",
    url := "https://example-source-1.com",
    snippet := String.mk (List.replicate 60 'a') ++ "...",
    source := "llm_simulation",
    relevance_score := 0.7 }

/-- Witness for C9 (amended) at the concrete simulated output. -/
theorem simulated_research_marker_witness :
    simEntry ∈ parse_simulated_research simContent
    ∧ (create_research_summary "ai"
        { organized_content := "", source_count := 0,
          research_depth := "moderate" }).sources = []
    ∧ simEntry.source = "llm_simulation" := by
  have hparse : parse_simulated_research simContent = [simEntry] := rfl
  have hmem : simEntry ∈ parse_simulated_research simContent := by
    rw [hparse]
    exact List.mem_singleton.mpr rfl
  refine ⟨hmem, ?_, ?_⟩
  · exact (simulated_research_marker "ai"
      { organized_content := "", source_count := 0, research_depth := "moderate" }
      simContent simEntry hmem).1
  · exact (simulated_research_marker "ai"
      { organized_content := "", source_count := 0, research_depth := "moderate" }
      simContent simEntry hmem).2

end NobleBooks
